import Mathlib

/-!
Verification of the strands-mcp-server documentation cache and retrieval
subsystem against its natural-language specification.

The Python sources embedded here are `server.py` (tools `search_docs` and
`fetch_doc`), `utils/doc_fetcher.py` (catalog parsing, page fetching and
cleaning) and `config.py`.  The `utils/cache.py` and `utils/text_processor.py`
modules are not part of the provided sources; the definitions standing in for
them are marked `Modelled from the spec:` in their doc comments.

Network I/O is embedded by passing the network explicitly as an oracle
`net : String -> Option String`: `net url = some raw` means the HTTP GET of
`url` succeeded and decoded (with errors ignored) to `raw`; `none` means a
network failure or timeout (`urllib.error.URLError`).
-/

/-- Whitespace test used to model Python `str.strip()` (the ASCII whitespace
characters; the full Unicode table is irrelevant to the corpus handled here). -/
def isPySpace (c : Char) : Bool :=
  c == ' ' || c == '\t' || c == '\n' || c == '\r' || c == Char.ofNat 11 || c == Char.ofNat 12

/-- Model of Python `str.strip()`: drop leading and trailing whitespace. -/
def pyStripList (s : List Char) : List Char :=
  (((s.dropWhile isPySpace).reverse).dropWhile isPySpace).reverse

/-- Case-insensitive prefix test (both sides lowered character-wise), modelling
matching of an ASCII literal under Python `re.IGNORECASE`. -/
def startsWithCI (pat s : List Char) : Bool :=
  (s.take pat.length).map Char.toLower == pat.map Char.toLower

/-- First case-insensitive occurrence of `pat` in the list: returns the part
before the occurrence and the part after it.  Models `re` leftmost search for a
plain literal. -/
def splitFirstCI (pat : List Char) : List Char → Option (List Char × List Char)
  | [] => if pat.isEmpty then some ([], []) else none
  | c :: rest =>
      if startsWithCI pat (c :: rest) then some ([], (c :: rest).drop pat.length)
      else
        match splitFirstCI pat rest with
        | some (b, a) => some (c :: b, a)
        | none => none

/-- Case-insensitive containment, modelling Python `pat in raw.lower()`. -/
def containsCI (pat s : List Char) : Bool :=
  (splitFirstCI pat s).isSome

/-- Model of Python `html.unescape` restricted to the predefined XML character
references; the theorems below do not depend on the full HTML5 entity table. -/
def unescapeList : List Char → List Char
  | '&' :: 'a' :: 'm' :: 'p' :: ';' :: rest => '&' :: unescapeList rest
  | '&' :: 'l' :: 't' :: ';' :: rest => '<' :: unescapeList rest
  | '&' :: 'g' :: 't' :: ';' :: rest => '>' :: unescapeList rest
  | '&' :: 'q' :: 'u' :: 'o' :: 't' :: ';' :: rest => '"' :: unescapeList rest
  | '&' :: '#' :: '3' :: '9' :: ';' :: rest => Char.ofNat 39 :: unescapeList rest
  | c :: rest => c :: unescapeList rest
  | [] => []

/-- Model of Python `str.splitlines` for the line boundaries occurring here
(LF, CRLF, CR); a terminator at the end of the string produces no trailing
empty line. -/
def splitlinesGo : List Char → List Char → List (List Char)
  | [], acc => [acc.reverse]
  | '\r' :: '\n' :: rest, acc =>
      acc.reverse :: (match rest with | [] => [] | r => splitlinesGo r [])
  | '\n' :: rest, acc =>
      acc.reverse :: (match rest with | [] => [] | r => splitlinesGo r [])
  | '\r' :: rest, acc =>
      acc.reverse :: (match rest with | [] => [] | r => splitlinesGo r [])
  | c :: rest, acc => splitlinesGo rest (c :: acc)

/-- Wrapper for `splitlinesGo`: Python `"".splitlines()` is the empty list. -/
def splitlinesList (s : List Char) : List (List Char) :=
  match s with
  | [] => []
  | c :: rest => splitlinesGo (c :: rest) []

/-- Characters after the last `/` of a URL (the whole URL when it has no `/`),
modelling `page_url.rsplit("/", 1)[-1]`. -/
def afterLastSlash (url : List Char) : List Char :=
  (url.reverse.takeWhile (fun c => c != '/')).reverse

/-- Model of `page_url.rsplit("/", 1)[-1] or page_url` from
`doc_fetcher.fetch_and_clean`. -/
def lastSegmentOrSelf (url : List Char) : List Char :=
  if (afterLastSlash url).isEmpty then url else afterLastSlash url

/-- Model of the Python truthiness chain `extracted_title or fallback` on an
optional string: an absent or empty extraction yields the fallback. -/
def pyTruthy (o : Option (List Char)) (d : List Char) : List Char :=
  match o with
  | some t => if t.isEmpty then d else t
  | none => d

/-- Search for `_TITLE_TAG` from `doc_fetcher.py`, the pattern
`(?is)<title[^>]*>(.*?)</title>`: at each case-insensitive occurrence of
`<title`, the attribute run extends to the first `>`, and the lazy group
captures up to the first following `</title>`; if no close tag follows, the
search resumes at the next occurrence.  Returns the raw captured group. -/
def titleTagSearchAux : List Char → Option (List Char)
  | [] => none
  | c :: rest =>
      if startsWithCI "<title".data (c :: rest) then
        match ((c :: rest).drop 6).span (fun ch => ch != '>') with
        | (_, '>' :: afterGt) =>
            match splitFirstCI "</title>".data afterGt with
            | some (captured, _) => some captured
            | none => titleTagSearchAux rest
        | _ => titleTagSearchAux rest
      else titleTagSearchAux rest

/-- Search for `_H1_TAG` from `doc_fetcher.py`, the pattern
`(?is)<h1[^>]*>(.*?)</h1>`, with the same leftmost-lazy semantics as
`titleTagSearchAux`. -/
def h1SearchAux : List Char → Option (List Char)
  | [] => none
  | c :: rest =>
      if startsWithCI "<h1".data (c :: rest) then
        match ((c :: rest).drop 3).span (fun ch => ch != '>') with
        | (_, '>' :: afterGt) =>
            match splitFirstCI "</h1>".data afterGt with
            | some (captured, _) => some captured
            | none => h1SearchAux rest
        | _ => h1SearchAux rest
      else h1SearchAux rest

/-- Quote class of `_META_OG`: the character class matching a double or single
quote. -/
def ogQuote (c : Char) : Bool :=
  c == '"' || c == Char.ofNat 39

/-- Second half of a `_META_OG` match: given the text after the closing quote
of `og:title`, try the greedy `[^>]+` runs (longest first, as backtracking
does) before `content=`, then a quote, then capture lazily up to the next
quote. -/
def ogFromB (rest5 : List Char) : Option (List Char) :=
  let runLen := (rest5.takeWhile (fun ch => ch != '>')).length
  ((List.range runLen).map (fun j => runLen - j)).findSome? (fun bLen =>
    let rest6 := rest5.drop bLen
    if startsWithCI "content=".data rest6 then
      match rest6.drop 8 with
      | q :: rest8 =>
          if ogQuote q then
            match rest8.span (fun ch => !(ogQuote ch)) with
            | (cap, _ :: _) => some cap
            | _ => none
          else none
      | [] => none
    else none)

/-- First half of a `_META_OG` match: after a case-insensitive `<meta`, try the
greedy `[^>]+` runs (longest first) before `property=`, then a quoted
`og:title`, then hand over to `ogFromB`. -/
def ogFromA (afterMeta : List Char) : Option (List Char) :=
  let runLen := (afterMeta.takeWhile (fun ch => ch != '>')).length
  ((List.range runLen).map (fun j => runLen - j)).findSome? (fun aLen =>
    let rest1 := afterMeta.drop aLen
    if startsWithCI "property=".data rest1 then
      match rest1.drop 9 with
      | q1 :: rest3 =>
          if ogQuote q1 then
            if startsWithCI "og:title".data rest3 then
              match rest3.drop 8 with
              | q2 :: rest5 => if ogQuote q2 then ogFromB rest5 else none
              | [] => none
            else none
          else none
      | [] => none
    else none)

/-- Search for `_META_OG` from `doc_fetcher.py`, the pattern
`(?is)<meta[^>]+property=["]og:title["][^>]+content=["](.*?)["]` (each quote
class also allowing a single quote). -/
def metaOgSearchAux : List Char → Option (List Char)
  | [] => none
  | c :: rest =>
      if startsWithCI "<meta".data (c :: rest) then
        match ogFromA ((c :: rest).drop 5) with
        | some cap => some cap
        | none => metaOgSearchAux rest
      else metaOgSearchAux rest

/-- One match of `_TAG` (`(?s)<[^>]+>`) at the head of the list: a `<`, at
least one non-`>` character, then the first `>`.  Returns the remainder after
the match. -/
def tagAt (s : List Char) : Option (List Char) :=
  match s with
  | '<' :: rest =>
      match rest.span (fun ch => ch != '>') with
      | (mid, '>' :: after) => if mid.isEmpty then none else some after
      | _ => none
  | _ => none

/-- Fuel-driven driver for `_TAG.sub(" ", s)`: scan left to right, replacing
each non-overlapping match by a single space.  Fuel `s.length` suffices since
every match consumes at least one character. -/
def tagSubGo : Nat → List Char → List Char
  | 0, s => s
  | _, [] => []
  | fuel + 1, c :: rest =>
      match tagAt (c :: rest) with
      | some after => ' ' :: tagSubGo fuel after
      | none => c :: tagSubGo fuel rest

/-- Model of `_TAG.sub(" ", s)` from `doc_fetcher._html_to_text`. -/
def tagSub (s : List Char) : List Char :=
  tagSubGo s.length s

/-- One match of `_HTML_BLOCK` (`(?is)<(script|style|noscript).*?>.*?</\1>`)
at the head of the list: the alternation is tried in order, the first lazy run
ends at the first `>` after the tag name, and the close tag is the first
case-insensitive `</name>` after that `>`.  Returns the remainder after the
match. -/
def hblockAt (s : List Char) : Option (List Char) :=
  match s with
  | '<' :: rest =>
      match ["script".data, "style".data, "noscript".data].find?
          (fun t => startsWithCI t rest) with
      | some t =>
          match splitFirstCI ['>'] (rest.drop t.length) with
          | some (_, afterGt) =>
              match splitFirstCI (('<' :: '/' :: t) ++ ['>']) afterGt with
              | some (_, afterClose) => some afterClose
              | none => none
          | none => none
      | none => none
  | _ => none

/-- Fuel-driven driver for `_HTML_BLOCK.sub("", s)`. -/
def hblockSubGo : Nat → List Char → List Char
  | 0, s => s
  | _, [] => []
  | fuel + 1, c :: rest =>
      match hblockAt (c :: rest) with
      | some after => hblockSubGo fuel after
      | none => c :: hblockSubGo fuel rest

/-- Model of `_HTML_BLOCK.sub("", s)` from `doc_fetcher._html_to_text`. -/
def hblockSub (s : List Char) : List Char :=
  hblockSubGo s.length s

/-- Embedding of `doc_fetcher._html_to_text`: strip script/style/noscript
blocks, drop tags, unescape entities, then strip each line and remove the
empty ones. -/
def html_to_text (raw : List Char) : List Char :=
  let s1 := hblockSub raw
  let s2 := tagSub s1
  let s3 := unescapeList s2
  let lines := (splitlinesList s3).map pyStripList
  List.intercalate ['\n'] (lines.filter (fun l => !l.isEmpty))

/-- Embedding of `doc_fetcher._extract_html_title`: try `_TITLE_TAG`, then
`_META_OG`, then `_H1_TAG` (whose group is passed through `_TAG.sub` first);
each extraction is unescaped and stripped. -/
def extract_html_title (raw : List Char) : Option (List Char) :=
  match titleTagSearchAux raw with
  | some g => some (pyStripList (unescapeList g))
  | none =>
      match metaOgSearchAux raw with
      | some g => some (pyStripList (unescapeList g))
      | none =>
          match h1SearchAux raw with
          | some g => some (pyStripList (unescapeList (tagSub g)))
          | none => none

/-- Markup sniff of `doc_fetcher.fetch_and_clean`: the payload looks like HTML
when its lowering contains `<html`, `<head` or `<body`. -/
def looksLikeHtml (raw : List Char) : Bool :=
  containsCI "<html".data raw || containsCI "<head".data raw || containsCI "<body".data raw

/-- Embedding of the `Page` dataclass from `doc_fetcher.py`. -/
structure Page where
  url : String
  title : String
  content : String
deriving DecidableEq

/-- Embedding of `doc_fetcher.fetch_and_clean`, with the fetched payload `raw`
passed explicitly (the network call `_get` is factored out).  On markup the
title is the extraction chain with the Python `or` fallbacks to the last URL
segment and then the URL; on plain text the title is the last URL segment (or
the URL) and the content is the payload itself. -/
def fetch_and_clean (page_url : String) (raw : String) : Page :=
  if looksLikeHtml raw.data then
    { url := page_url
      title := String.mk (pyTruthy (extract_html_title raw.data) (lastSegmentOrSelf page_url.data))
      content := String.mk (html_to_text raw.data) }
  else
    { url := page_url
      title := String.mk (lastSegmentOrSelf page_url.data)
      content := raw }

/-- One match of `_MD_LINK` (`\[([^\]]+)\]\((https?://[^\)]+)\)`) at the head
of the list: returns the two captured groups and the remainder, for the second
group the scheme alternatives tried greedily (`https` before `http`). -/
def mdLinkTail (g1 scheme r3 : List Char) : Option ((List Char × List Char) × List Char) :=
  match r3.span (fun c => c != ')') with
  | (tail, ')' :: after) =>
      if tail.isEmpty then none else some ((g1, scheme ++ tail), after)
  | _ => none

/-- Head match of `_MD_LINK`; see `mdLinkTail`. -/
def mdLinkAt (s : List Char) : Option ((List Char × List Char) × List Char) :=
  match s with
  | '[' :: rest =>
      match rest.span (fun c => c != ']') with
      | (g1, ']' :: '(' :: r2) =>
          if g1.isEmpty then none
          else if r2.take 8 = "https://".data then mdLinkTail g1 "https://".data (r2.drop 8)
          else if r2.take 7 = "http://".data then mdLinkTail g1 "http://".data (r2.drop 7)
          else none
      | _ => none
  | _ => none

/-- Fuel-driven driver for `_MD_LINK.finditer`: all non-overlapping matches,
left to right. -/
def mdLinkFinditerGo : Nat → List Char → List (List Char × List Char)
  | 0, _ => []
  | _, [] => []
  | fuel + 1, c :: rest =>
      match mdLinkAt (c :: rest) with
      | some (m, after) => m :: mdLinkFinditerGo fuel after
      | none => mdLinkFinditerGo fuel rest

/-- Model of `_MD_LINK.finditer`, returning the pairs of captured groups. -/
def mdLinkFinditer (s : List Char) : List (List Char × List Char) :=
  mdLinkFinditerGo s.length s

/-- Embedding of `doc_fetcher.parse_llms_txt`, with the fetched catalog text
passed explicitly: each markdown link yields
`(group1.strip() or group2.strip(), group2.strip())`. -/
def parse_llms_txt (txt : String) : List (String × String) :=
  (mdLinkFinditer txt.data).map (fun m =>
    (String.mk (if (pyStripList m.1).isEmpty then pyStripList m.2 else pyStripList m.1),
     String.mk (pyStripList m.2)))

/-- Composition of `_get` and `fetch_and_clean`: the Content Fetcher contract
`fetch(uri) -> Page` of the spec.  `_get` decodes with `errors="ignore"`, so a
successful network response always yields a string and then a `Page`; `none`
models `urllib.error.URLError` (network failure or timeout). -/
def fetchContent (net : String → Option String) (page_url : String) : Option Page :=
  (net page_url).map (fetch_and_clean page_url)

/-- Association list lookup with string keys, modelling a Python dict read. -/
def alistGet {A : Type} (l : List (String × A)) (k : String) : Option A :=
  match l with
  | [] => none
  | (k1, v1) :: rest => if k1 = k then some v1 else alistGet rest k

/-- Association list update, modelling a Python dict write: an existing key is
updated in place, a new key is appended. -/
def alistPut {A : Type} (l : List (String × A)) (k : String) (v : A) : List (String × A) :=
  match l with
  | [] => [(k, v)]
  | (k1, v1) :: rest => if k1 = k then (k, v) :: rest else (k1, v1) :: alistPut rest k v

/-- Embedding of the catalog entry record consumed by `server.py` (fields
`uri` and `display_title`). -/
structure CatalogEntry where
  uri : String
  display_title : String
deriving DecidableEq

/-- Modelled from the spec: the process-wide state owned by `utils/cache.py` —
the catalog as a URI-to-title mapping (`get_url_titles`), the content cache
mapping a URI to a `Page` or to a recorded-failure marker (`none`), and a
counter of network fetches performed (used to state the bounded-network-cost
properties). -/
structure CacheState where
  urlTitles : List (String × String)
  urlCache : List (String × Option Page)
  fetchCount : Nat
deriving DecidableEq

/-- Modelled from the spec: `url_cache.get(uri)` — a read-only lookup that
never fetches; both an absent key and a recorded failure surface as `none`. -/
def url_cache_get (st : CacheState) (uri : String) : Option Page :=
  (alistGet st.urlCache uri).join

/-- Modelled from the spec: the fetch-and-store half of `ensure`: perform one
network fetch via the Content Fetcher, record the result (page or failure
marker) keyed by the URI, and count the fetch. -/
def ensure_fetch (net : String → Option String) (st : CacheState) (uri : String) :
    Option Page × CacheState :=
  match net uri with
  | none =>
      (none, { st with urlCache := alistPut st.urlCache uri none,
                       fetchCount := st.fetchCount + 1 })
  | some raw =>
      (some (fetch_and_clean uri raw),
       { st with urlCache := alistPut st.urlCache uri (some (fetch_and_clean uri raw)),
                 fetchCount := st.fetchCount + 1 })

/-- Modelled from the spec: `cache.ensure_page(uri)` — a URI present with
non-empty content is returned with no network activity; an absent or
empty-content URI is fetched exactly once and the result recorded; a recorded
failure is returned as `none` without another fetch (the spec's safe default
of never retrying automatically). -/
def ensure_page (net : String → Option String) (st : CacheState) (uri : String) :
    Option Page × CacheState :=
  match alistGet st.urlCache uri with
  | some (some p) => if p.content = "" then ensure_fetch net st uri else (some p, st)
  | some none => (none, st)
  | none => ensure_fetch net st uri

/-- Modelled from the spec: the catalog built by merging the parsed
`(title, url)` pairs into a URI-keyed mapping — one entry per unique URI, with
Python dict update semantics on duplicates. -/
def build_url_titles (entries : List (String × String)) : List (String × String) :=
  entries.foldl (fun acc e => alistPut acc e.2 e.1) []

/-- Modelled from the spec: the hydration bound constant
`cache.SNIPPET_HYDRATE_MAX` (a fixed constant, the spec suggests 5). -/
def SNIPPET_HYDRATE_MAX : Nat := 5

/-- Modelled from the spec: the short excerpt derived from hydrated content
for a snippet. -/
def snippetExcerpt (content : String) : String :=
  String.mk (content.data.take 200)

/-- Modelled from the spec: `text_processor.make_snippet(page, display_title)`
— a content-derived excerpt when the page is hydrated with non-empty content,
otherwise the title-only fallback. -/
def make_snippet (page : Option Page) (displayTitle : String) : String :=
  match page with
  | some p => if p.content = "" then displayTitle else snippetExcerpt p.content
  | none => displayTitle

/-- Round-half-to-even on an exact rational, modelling Python `round`. -/
def roundHalfEven (q : ℚ) : ℤ :=
  if q - Rat.floor q < 1 / 2 then Rat.floor q
  else if 1 / 2 < q - Rat.floor q then Rat.floor q + 1
  else if Rat.floor q % 2 = 0 then Rat.floor q else Rat.floor q + 1

/-- Model of Python `round(score, 3)` over exact rationals (binary-float
artifacts are out of scope). -/
def round3 (q : ℚ) : ℚ :=
  (roundHalfEven (q * 1000) : ℚ) / 1000

/-- Result record of the `fetch_doc` tool, one variant per response shape of
`server.py` (catalog listing, error object, document). -/
inductive FetchDocResult where
  | urls (entries : List (String × String))
  | err (error url : String)
  | page (url title content : String)
deriving DecidableEq

/-- Prefix test `uri.startswith(pre)` from `server.py`. -/
def pyStartsWith (s pre : String) : Bool :=
  s.data.take pre.data.length == pre.data

/-- Embedding of the `fetch_doc` tool from `server.py` (after `ensure_ready`,
whose completed state is `st`): an empty URI returns the catalog listing; a
URI that does not start with `https://strandsagents.com` is rejected with a
structured error and no state change; otherwise the page is ensured and either
returned or reported as a fetch failure. -/
def fetch_doc (net : String → Option String) (st : CacheState) (uri : String) :
    FetchDocResult × CacheState :=
  if uri = "" then
    (FetchDocResult.urls st.urlTitles, st)
  else if !(pyStartsWith uri "https://strandsagents.com") then
    (FetchDocResult.err "only https://strandsagents.com URLs allowed" uri, st)
  else
    match ensure_page net st uri with
    | (none, st2) => (FetchDocResult.err "fetch failed" uri, st2)
    | (some p, st2) => (FetchDocResult.page uri p.title p.content, st2)

/-- Result record of one `search_docs` entry (`url`, `title`, `score`,
`snippet`). -/
structure SearchResultOut where
  url : String
  title : String
  score : ℚ
  snippet : String
deriving DecidableEq

/-- One pass of the hydration loop of `search_docs`: fetch the document when
the cache has nothing or only empty content for it. -/
def hydrateStep (net : String → Option String) (st : CacheState) (uri : String) : CacheState :=
  match url_cache_get st uri with
  | some pg => if pg.content = "" then (ensure_page net st uri).2 else st
  | none => (ensure_page net st uri).2

/-- The hydration loop of `search_docs` over the top results, left to right. -/
def hydrateTop (net : String → Option String) (st : CacheState)
    (top : List (ℚ × CatalogEntry)) : CacheState :=
  match top with
  | [] => st
  | p :: rest => hydrateTop net (hydrateStep net st p.2.uri) rest

/-- Embedding of the `search_docs` tool from `server.py` (after
`ensure_ready`): the ranked results returned by the Search Index are passed
explicitly as `results` (the index lives in `utils/cache.py`, outside the
provided sources).  The top `SNIPPET_HYDRATE_MAX` results are hydrated, then
one response entry is built per result, in order, reading snippets from the
updated cache. -/
def search_docs (net : String → Option String) (st : CacheState)
    (results : List (ℚ × CatalogEntry)) : List SearchResultOut × CacheState :=
  let top := results.take (min results.length SNIPPET_HYDRATE_MAX)
  let st2 := hydrateTop net st top
  (results.map (fun p =>
      { url := p.2.uri
        title := p.2.display_title
        score := round3 p.1
        snippet := make_snippet (url_cache_get st2 p.2.uri) p.2.display_title }),
   st2)

/-- Network oracle for witnesses: every fetch fails. -/
def netNone : String → Option String := fun _ => none

/-- Network oracle for witnesses: every fetch returns the plain text
`hello`. -/
def netHello : String → Option String := fun _ => some "hello"

/-- A payload that is not text: the decoded bytes of a GIF header (decoding
with `errors="ignore"` cannot fail, so this reaches `fetch_and_clean`
unchanged). -/
def binPayload : String :=
  String.mk [Char.ofNat 0, Char.ofNat 1, Char.ofNat 2, 'G', 'I', 'F', '8', '9', 'a', Char.ofNat 0]

/-- Network oracle for witnesses: every fetch returns the binary payload. -/
def netBin : String → Option String := fun _ => some binPayload

/-- A ready cache state with an empty catalog, an empty content cache and no
fetches performed. -/
def stEmptyW : CacheState := { urlTitles := [], urlCache := [], fetchCount := 0 }

/-- Six catalog entries used in concrete witnesses, one past the hydration
bound. -/
def rsW : List (ℚ × CatalogEntry) :=
  [(0, { uri := "u1", display_title := "T1" }),
   (0, { uri := "u2", display_title := "T2" }),
   (0, { uri := "u3", display_title := "T3" }),
   (0, { uri := "u4", display_title := "T4" }),
   (0, { uri := "u5", display_title := "T5" }),
   (0, { uri := "u6", display_title := "T6" })]

/-- A page for `u6` already hydrated with non-empty content. -/
def pageW6 : Page := { url := "u6", title := "T6", content := "hello world content" }

/-- A ready cache state in which `u6` (the result past the hydration bound in
`rsW`) is already hydrated. -/
def stHydraW : CacheState := { urlTitles := [], urlCache := [("u6", some pageW6)], fetchCount := 0 }

/-- An `alistPut` never changes the value stored at a different key. -/
theorem alistGet_put_other {A : Type} (l : List (String × A)) (k : String) (v : A)
    (u : String) (h : u ≠ k) : alistGet (alistPut l k v) u = alistGet l u := by
  induction l with
  | nil =>
      simp only [alistPut, alistGet]
      rw [if_neg (fun he => h he.symm)]
  | cons hd tl ih =>
      obtain ⟨k1, v1⟩ := hd
      by_cases hk : k1 = k
      · subst hk
        simp only [alistPut, if_pos rfl, alistGet]
        rw [if_neg (fun he => h he.symm), if_neg (fun he => h he.symm)]
      · simp only [alistPut, if_neg hk, alistGet]
        by_cases hu : k1 = u
        · rw [if_pos hu, if_pos hu]
        · rw [if_neg hu, if_neg hu, ih]

/-- Keys after an `alistPut` are the old keys together with the inserted
key. -/
theorem alistPut_fst_mem {A : Type} (l : List (String × A)) (k : String) (v : A)
    (u : String) : u ∈ (alistPut l k v).map Prod.fst ↔ u = k ∨ u ∈ l.map Prod.fst := by
  induction l with
  | nil => simp [alistPut]
  | cons hd tl ih =>
      obtain ⟨k1, v1⟩ := hd
      by_cases hk : k1 = k
      · subst hk
        simp [alistPut]
      · simp only [alistPut, if_neg hk, List.map_cons, List.mem_cons, ih]
        tauto

/-- An `alistPut` preserves distinctness of the keys. -/
theorem alistPut_fst_nodup {A : Type} (l : List (String × A)) (k : String) (v : A)
    (h : (l.map Prod.fst).Nodup) : ((alistPut l k v).map Prod.fst).Nodup := by
  induction l with
  | nil => simp [alistPut]
  | cons hd tl ih =>
      obtain ⟨k1, v1⟩ := hd
      simp only [List.map_cons, List.nodup_cons] at h
      by_cases hk : k1 = k
      · subst hk
        simpa [alistPut] using h
      · simp only [alistPut, if_neg hk, List.map_cons, List.nodup_cons]
        refine ⟨fun hmem => ?_, ih h.2⟩
        rcases (alistPut_fst_mem tl k v k1).mp hmem with he | hmem2
        · exact hk he
        · exact h.1 hmem2

/-- The keys of the folded-up catalog mapping are the accumulator keys
together with the URIs of the remaining entries. -/
theorem build_fold_mem : ∀ (entries : List (String × String)) (acc : List (String × String))
    (u : String),
    u ∈ ((entries.foldl (fun acc2 e => alistPut acc2 e.2 e.1) acc).map Prod.fst) ↔
      u ∈ acc.map Prod.fst ∨ u ∈ entries.map Prod.snd := by
  intro entries
  induction entries with
  | nil => intro acc u; simp
  | cons e tl ih =>
      intro acc u
      simp only [List.foldl_cons, List.map_cons, List.mem_cons]
      rw [ih, alistPut_fst_mem]
      tauto

/-- The folded-up catalog mapping keeps its keys distinct. -/
theorem build_fold_nodup : ∀ (entries : List (String × String)) (acc : List (String × String)),
    ((acc.map Prod.fst).Nodup) →
    (((entries.foldl (fun acc2 e => alistPut acc2 e.2 e.1) acc)).map Prod.fst).Nodup := by
  intro entries
  induction entries with
  | nil => intro acc h; simpa using h
  | cons e tl ih =>
      intro acc h
      simp only [List.foldl_cons]
      exact ih _ (alistPut_fst_nodup _ _ _ h)

/-- `ensure_page` performs at most one network fetch. -/
theorem ensure_page_count (net : String → Option String) (st : CacheState) (uri : String) :
    (ensure_page net st uri).2.fetchCount ≤ st.fetchCount + 1 := by
  unfold ensure_page ensure_fetch
  repeat' split
  all_goals simp

/-- `ensure_page` leaves the cached value of every other URI unchanged. -/
theorem ensure_page_get_other (net : String → Option String) (st : CacheState)
    (uri u : String) (h : u ≠ uri) :
    url_cache_get (ensure_page net st uri).2 u = url_cache_get st u := by
  unfold ensure_page ensure_fetch url_cache_get
  repeat' split
  all_goals simp [alistGet_put_other _ _ _ _ h]

/-- One hydration pass performs at most one network fetch. -/
theorem hydrateStep_count (net : String → Option String) (st : CacheState) (uri : String) :
    (hydrateStep net st uri).fetchCount ≤ st.fetchCount + 1 := by
  unfold hydrateStep
  repeat' split
  all_goals first
    | exact ensure_page_count net st uri
    | omega

/-- One hydration pass leaves the cached value of every other URI
unchanged. -/
theorem hydrateStep_get_other (net : String → Option String) (st : CacheState)
    (uri u : String) (h : u ≠ uri) :
    url_cache_get (hydrateStep net st uri) u = url_cache_get st u := by
  unfold hydrateStep
  repeat' split
  all_goals first
    | exact ensure_page_get_other net st uri u h
    | rfl

/-- The hydration loop performs at most one network fetch per processed
result. -/
theorem hydrateTop_count (net : String → Option String) :
    ∀ (top : List (ℚ × CatalogEntry)) (st : CacheState),
    (hydrateTop net st top).fetchCount ≤ st.fetchCount + top.length := by
  intro top
  induction top with
  | nil => intro st; simp [hydrateTop]
  | cons p rest ih =>
      intro st
      have h1 := ih (hydrateStep net st p.2.uri)
      have h2 := hydrateStep_count net st p.2.uri
      simp only [hydrateTop, List.length_cons]
      omega

/-- The hydration loop leaves the cached value of every URI that is not among
the processed results unchanged. -/
theorem hydrateTop_get_other (net : String → Option String) :
    ∀ (top : List (ℚ × CatalogEntry)) (st : CacheState) (u : String),
    (∀ q ∈ top, q.2.uri ≠ u) →
    url_cache_get (hydrateTop net st top) u = url_cache_get st u := by
  intro top
  induction top with
  | nil => intro st u _; rfl
  | cons p rest ih =>
      intro st u h
      have hp : p.2.uri ≠ u := h p (List.mem_cons_self p rest)
      have hrest : ∀ q ∈ rest, q.2.uri ≠ u := fun q hq => h q (List.mem_cons_of_mem p hq)
      simp only [hydrateTop]
      rw [ih _ u hrest, hydrateStep_get_other net st p.2.uri u (fun he => hp he.symm)]

/-- Taking `min l.length n` elements is the same as taking `n`. -/
theorem take_min_self {α : Type} : ∀ (l : List α) (n : Nat),
    l.take (min l.length n) = l.take n := by
  intro l
  induction l with
  | nil => intro n; simp
  | cons a tl ih =>
      intro n
      cases n with
      | zero => simp
      | succ m =>
          simp only [List.length_cons, Nat.succ_min_succ, List.take_succ_cons]
          rw [ih]

/-- Splitting `dropWhile` over an append. -/
theorem dropWhile_append_local (p : Char → Bool) : ∀ (x y : List Char),
    List.dropWhile p (x ++ y) =
      if (List.dropWhile p x).isEmpty then List.dropWhile p y
      else List.dropWhile p x ++ y := by
  intro x y
  induction x with
  | nil => simp
  | cons a tl ih =>
      by_cases h : p a
      · simp only [List.cons_append, List.dropWhile_cons, h, if_true, ih]
      · simp [List.dropWhile_cons, h]

/-- Taking as many elements as the first part of an append returns exactly
that first part. -/
theorem take_append_self {α : Type} : ∀ (a b : List α), (a ++ b).take a.length = a := by
  intro a
  induction a with
  | nil => intro b; simp
  | cons x tl ih => intro b; simp [ih]

/-- Stripping whitespace from a string whose first and last characters are not
whitespace at its front keeps the front intact: the result is that front
followed by some remainder. -/
theorem pyStripList_append_keep (sch t : List Char)
    (hhead : sch.head?.map isPySpace = some false)
    (hlast : sch.reverse.head?.map isPySpace = some false) :
    ∃ t2, pyStripList (sch ++ t) = sch ++ t2 := by
  cases sch with
  | nil => simp at hhead
  | cons c l =>
      have hc : isPySpace c = false := by simpa using hhead
      rcases hrev : (c :: l).reverse with _ | ⟨c2, l2⟩
      · exact absurd (congrArg List.length hrev) (by simp)
      · have hc2 : isPySpace c2 = false := by
          rw [hrev] at hlast
          simpa using hlast
        unfold pyStripList
        rw [List.cons_append, List.dropWhile_cons, hc]
        simp only [Bool.false_eq_true, if_false]
        rw [show c :: (l ++ t) = (c :: l) ++ t from rfl, List.reverse_append, hrev,
          dropWhile_append_local]
        by_cases he : (List.dropWhile isPySpace t.reverse).isEmpty
        · rw [if_pos he, List.dropWhile_cons, hc2]
          simp only [Bool.false_eq_true, if_false]
          refine ⟨[], ?_⟩
          rw [List.append_nil, ← hrev, List.reverse_reverse]
        · rw [if_neg he]
          refine ⟨(List.dropWhile isPySpace t.reverse).reverse, ?_⟩
          rw [List.reverse_append, ← hrev, List.reverse_reverse]

/-- Every group-2 capture produced by `mdLinkTail` is its scheme followed by a
non-empty remainder. -/
theorem mdLinkTail_scheme (g1 scheme r3 : List Char) (m : List Char × List Char)
    (after : List Char) (h : mdLinkTail g1 scheme r3 = some (m, after)) :
    ∃ tl, tl ≠ [] ∧ m.2 = scheme ++ tl := by
  unfold mdLinkTail at h
  split at h
  · split at h
    · exact absurd h (by simp)
    · rename_i tail after2 heq hne
      refine ⟨tail, ?_, ?_⟩
      · simpa using hne
      · injection h with h1
        injection h1 with h2 h3
        rw [← h2]
  · exact absurd h (by simp)

/-- Every match produced by `mdLinkAt` captures a target that starts with
`http://` or `https://`. -/
theorem mdLinkAt_scheme (s : List Char) (m : List Char × List Char) (after : List Char)
    (h : mdLinkAt s = some (m, after)) :
    (∃ tl, tl ≠ [] ∧ m.2 = "http://".data ++ tl) ∨
    (∃ tl, tl ≠ [] ∧ m.2 = "https://".data ++ tl) := by
  unfold mdLinkAt at h
  split at h
  · split at h
    · split at h
      · exact absurd h (by simp)
      · split at h
        · exact Or.inr (mdLinkTail_scheme _ _ _ _ _ h)
        · split at h
          · exact Or.inl (mdLinkTail_scheme _ _ _ _ _ h)
          · exact absurd h (by simp)
    · exact absurd h (by simp)
  · exact absurd h (by simp)

/-- Every match produced by the `finditer` driver captures a target that
starts with `http://` or `https://`. -/
theorem mdLinkFinditerGo_scheme : ∀ (fuel : Nat) (s : List Char) (m : List Char × List Char),
    m ∈ mdLinkFinditerGo fuel s →
    (∃ tl, tl ≠ [] ∧ m.2 = "http://".data ++ tl) ∨
    (∃ tl, tl ≠ [] ∧ m.2 = "https://".data ++ tl) := by
  intro fuel
  induction fuel with
  | zero => intro s m h; simp [mdLinkFinditerGo] at h
  | succ f ih =>
      intro s m h
      cases s with
      | nil => simp [mdLinkFinditerGo] at h
      | cons c rest =>
          unfold mdLinkFinditerGo at h
          split at h
          · rename_i m2 after heq
            rcases List.mem_cons.mp h with he | hmem
            · subst he; exact mdLinkAt_scheme _ _ _ heq
            · exact ih _ _ hmem
          · exact ih _ _ h

/-- C1: `fetch_doc` with an empty uri returns the full catalog listing
`urls`, with one entry per unique catalog URI (the mapping's keys are
distinct and are exactly the URIs of the parsed catalog entries), regardless
of the hydration state of the content cache, and leaves the state
unchanged. -/
theorem C1_empty_uri_catalog_listing (net : String → Option String)
    (entries : List (String × String)) (cacheAny : List (String × Option Page)) (cnt : Nat) :
    fetch_doc net { urlTitles := build_url_titles entries, urlCache := cacheAny, fetchCount := cnt } "" =
      (FetchDocResult.urls (build_url_titles entries),
       { urlTitles := build_url_titles entries, urlCache := cacheAny, fetchCount := cnt })
    ∧ ((build_url_titles entries).map Prod.fst).Nodup
    ∧ (∀ u, u ∈ (build_url_titles entries).map Prod.fst ↔ u ∈ entries.map Prod.snd) := by
  refine ⟨rfl, ?_, ?_⟩
  · exact build_fold_nodup entries [] (by simp)
  · intro u
    have h := build_fold_mem entries [] u
    simpa using h

/-- C2: a non-empty uri outside the allowed prefix is rejected with the
structured error object carrying the message and the offending url, with no
state change (in particular no network fetch). -/
theorem C2_disallowed_uri_rejected (net : String → Option String) (st : CacheState)
    (uri : String) (h1 : uri ≠ "")
    (h2 : pyStartsWith uri "https://strandsagents.com" = false) :
    fetch_doc net st uri =
      (FetchDocResult.err "only https://strandsagents.com URLs allowed" uri, st) := by
  unfold fetch_doc
  rw [if_neg h1, h2]
  simp

/-- Witness for C2 at the spec's concrete input `ftp://x/y`. -/
theorem C2_disallowed_uri_rejected_w :
    fetch_doc netNone stEmptyW "ftp://x/y" =
      (FetchDocResult.err "only https://strandsagents.com URLs allowed" "ftp://x/y", stEmptyW) :=
  C2_disallowed_uri_rejected netNone stEmptyW "ftp://x/y" (by decide) (by decide)

/-- C3 as stated is false: in a state where a document past the hydration
bound is already hydrated with content, its `search_docs` entry carries the
content-derived snippet, not a title-only or empty fallback. -/
theorem C3_counterexample :
    SNIPPET_HYDRATE_MAX = 5
    ∧ ((search_docs netNone stHydraW rsW).1.map SearchResultOut.snippet)[5]? =
        some "hello world content"
    ∧ "hello world content" ≠ "T6"
    ∧ "hello world content" ≠ "" := by decide

/-- C3 amended: a `search_docs` call performs at most `SNIPPET_HYDRATE_MAX`
network fetches; every index result is returned; and a result past the bound
whose document is not cached and whose URI does not occur among the
bound-many top results carries the title-only fallback snippet. -/
theorem C3_hydration_bound (net : String → Option String) (st : CacheState)
    (results : List (ℚ × CatalogEntry)) :
    ((search_docs net st results).2.fetchCount ≤ st.fetchCount + SNIPPET_HYDRATE_MAX)
    ∧ ((search_docs net st results).1.length = results.length)
    ∧ (∀ i, SNIPPET_HYDRATE_MAX ≤ i → ∀ hi : i < results.length,
        url_cache_get st ((results.get ⟨i, hi⟩).2.uri) = none →
        (∀ q ∈ results.take SNIPPET_HYDRATE_MAX, q.2.uri ≠ (results.get ⟨i, hi⟩).2.uri) →
        ((search_docs net st results).1.map SearchResultOut.snippet)[i]? =
          some ((results.get ⟨i, hi⟩).2.display_title)) := by
  refine ⟨?_, ?_, ?_⟩
  · have h1 := hydrateTop_count net (results.take (min results.length SNIPPET_HYDRATE_MAX)) st
    have h2 : (results.take (min results.length SNIPPET_HYDRATE_MAX)).length ≤
        SNIPPET_HYDRATE_MAX := by
      rw [List.length_take]
      exact le_trans (Nat.min_le_left _ _) (Nat.min_le_right _ _)
    simp only [search_docs]
    omega
  · simp [search_docs]
  · intro i hbound hi hnone htop
    have htake : results.take (min results.length SNIPPET_HYDRATE_MAX) =
        results.take SNIPPET_HYDRATE_MAX := take_min_self results SNIPPET_HYDRATE_MAX
    have hother : ∀ q ∈ results.take (min results.length SNIPPET_HYDRATE_MAX),
        q.2.uri ≠ (results.get ⟨i, hi⟩).2.uri := by
      rw [htake]; exact htop
    have hget := hydrateTop_get_other net
      (results.take (min results.length SNIPPET_HYDRATE_MAX)) st
      ((results.get ⟨i, hi⟩).2.uri) hother
    simp only [search_docs, List.map_map]
    rw [List.getElem?_map, List.getElem?_eq_getElem hi]
    simp only [List.get_eq_getElem] at hget hnone
    simp [hget, hnone, make_snippet]

/-- Witness for the amended C3: with six results, an empty cache and a failing
network, the sixth entry carries the title-only fallback snippet. -/
theorem C3_hydration_bound_w :
    ((search_docs netNone stEmptyW rsW).1.map SearchResultOut.snippet)[5]? = some "T6" := by
  have h := (C3_hydration_bound netNone stEmptyW rsW).2.2 5 (by decide) (by decide)
    (by decide) (by decide)
  exact h

/-- C4: the two-path title policy of `fetch_and_clean` — on a non-markup
payload the title is the last URL path segment (or the URL); on a markup
payload the title is the extraction chain (`<title>` first, Open Graph title
next, first `<h1>` last) with the Python truthiness fallback to the
URL-derived title; including the spec's two concrete scenarios. -/
theorem C4_title_policy (url raw : String) :
    (looksLikeHtml raw.data = false →
       (fetch_and_clean url raw).title = String.mk (lastSegmentOrSelf url.data))
    ∧ (looksLikeHtml raw.data = true →
       (fetch_and_clean url raw).title =
         String.mk (pyTruthy (extract_html_title raw.data) (lastSegmentOrSelf url.data)))
    ∧ (∀ t, titleTagSearchAux raw.data = some t →
       extract_html_title raw.data = some (pyStripList (unescapeList t)))
    ∧ (titleTagSearchAux raw.data = none → ∀ t, metaOgSearchAux raw.data = some t →
       extract_html_title raw.data = some (pyStripList (unescapeList t)))
    ∧ (titleTagSearchAux raw.data = none → metaOgSearchAux raw.data = none →
       ∀ t, h1SearchAux raw.data = some t →
       extract_html_title raw.data = some (pyStripList (unescapeList (tagSub t))))
    ∧ (titleTagSearchAux raw.data = none → metaOgSearchAux raw.data = none →
       h1SearchAux raw.data = none → extract_html_title raw.data = none)
    ∧ ((fetch_and_clean "https://x/page"
          "<html><head><title>Foo</title></head><body>hi</body></html>").title = "Foo")
    ∧ ((fetch_and_clean "https://x/raw.txt" "plain text with no markup").title = "raw.txt") := by
  refine ⟨?_, ?_, ?_, ?_, ?_, ?_, by decide, by decide⟩
  · intro h; simp [fetch_and_clean, h]
  · intro h; simp [fetch_and_clean, h]
  · intro t h; simp [extract_html_title, h]
  · intro h1 t h2; simp [extract_html_title, h1, h2]
  · intro h1 h2 t h3; simp [extract_html_title, h1, h2, h3]
  · intro h1 h2 h3; simp [extract_html_title, h1, h2, h3]

/-- Witness for C4 on a concrete plain-text payload. -/
theorem C4_title_policy_w :
    (fetch_and_clean "https://x/notes.txt" "no tags at all").title = "notes.txt" := by
  have h := (C4_title_policy "https://x/notes.txt" "no tags at all").1 (by decide)
  exact h

/-- C5: every entry produced by the catalog parser targets an `http://` or
`https://` URL (links with other schemes yield no entry, as the concrete
`ftp://` example shows), and a link whose stripped title is empty yields an
entry whose title is the link target itself. -/
theorem C5_catalog_link_extraction :
    (∀ (txt : String) (e : String × String), e ∈ parse_llms_txt txt →
       pyStartsWith e.2 "http://" = true ∨ pyStartsWith e.2 "https://" = true)
    ∧ (∀ (txt : String) (m : List Char × List Char), m ∈ mdLinkFinditer txt.data →
       (pyStripList m.1).isEmpty = true →
       (String.mk (pyStripList m.2), String.mk (pyStripList m.2)) ∈ parse_llms_txt txt)
    ∧ parse_llms_txt "[a](ftp://x/y)[b](https://h/p)" = [("b", "https://h/p")] := by
  refine ⟨?_, ?_, by decide⟩
  · intro txt e he
    unfold parse_llms_txt at he
    rcases List.mem_map.mp he with ⟨m, hm, hfm⟩
    rcases mdLinkFinditerGo_scheme _ _ _ hm with ⟨tl, _, heq⟩ | ⟨tl, _, heq⟩
    · left
      rcases pyStripList_append_keep "http://".data tl (by decide) (by decide) with ⟨t2, ht2⟩
      have hstrip : pyStripList m.2 = "http://".data ++ t2 := by rw [heq]; exact ht2
      rw [← hfm]
      show pyStartsWith (String.mk (pyStripList m.2)) "http://" = true
      simp only [pyStartsWith, hstrip]
      rw [show ("http://" : String).data.length = "http://".data.length from rfl,
        take_append_self]
      simp
    · right
      rcases pyStripList_append_keep "https://".data tl (by decide) (by decide) with ⟨t2, ht2⟩
      have hstrip : pyStripList m.2 = "https://".data ++ t2 := by rw [heq]; exact ht2
      rw [← hfm]
      show pyStartsWith (String.mk (pyStripList m.2)) "https://" = true
      simp only [pyStartsWith, hstrip]
      rw [show ("https://" : String).data.length = "https://".data.length from rfl,
        take_append_self]
      simp
  · intro txt m hm hempty
    unfold parse_llms_txt
    refine List.mem_map.mpr ⟨m, hm, ?_⟩
    simp [hempty]

/-- Witness for C5: the link `[ ](http://a/b)` has an empty stripped title and
yields the entry whose title is the target URL; that entry's target carries an
allowed scheme. -/
theorem C5_catalog_link_extraction_w :
    (("http://a/b", "http://a/b") ∈ parse_llms_txt "[ ](http://a/b)")
    ∧ (pyStartsWith "http://a/b" "http://" = true ∨
       pyStartsWith "http://a/b" "https://" = true) := by
  constructor
  · have h := C5_catalog_link_extraction.2.1 "[ ](http://a/b)"
      ([' '], "http://a/b".data) (by decide) (by decide)
    exact h
  · exact C5_catalog_link_extraction.1 "[ ](http://a/b)" ("http://a/b", "http://a/b") (by decide)

/-- C6 as stated is false: a payload that is not text (decoded GIF header
bytes) does not make the fetch fail — it yields a `Page` whose content is the
payload itself. -/
theorem C6_counterexample :
    fetchContent netBin "https://x/a.gif" =
      some { url := "https://x/a.gif", title := "a.gif", content := binPayload }
    ∧ binPayload ≠ "" := by decide

/-- C6 amended: the content fetch fails exactly on network failure or timeout;
the payload is never inspected for failure — any successfully fetched payload,
text or not, yields a `Page`. -/
theorem C6_fetch_failure_conditions (net : String → Option String) (url : String) :
    (fetchContent net url = none ↔ net url = none)
    ∧ (∀ raw, net url = some raw → fetchContent net url = some (fetch_and_clean url raw)) := by
  constructor
  · cases h : net url <;> simp [fetchContent, h]
  · intro raw h
    simp [fetchContent, h]

/-- Witness for the amended C6 at a concrete network oracle. -/
theorem C6_fetch_failure_conditions_w :
    fetchContent netBin "https://x/f" = some (fetch_and_clean "https://x/f" binPayload) :=
  (C6_fetch_failure_conditions netBin "https://x/f").2 binPayload rfl

/-- C7: for an allowed uri whose hydration returns no page, `fetch_doc`
returns the structured `fetch failed` error object with the url — it is a
total function, so no fetch-level failure escapes the tool. -/
theorem C7_fetch_failure_structured (net : String → Option String) (st : CacheState)
    (uri : String) (h1 : pyStartsWith uri "https://strandsagents.com" = true)
    (h2 : (ensure_page net st uri).1 = none) :
    (fetch_doc net st uri).1 = FetchDocResult.err "fetch failed" uri := by
  have hne : uri ≠ "" := by
    intro he
    subst he
    exact absurd h1 (by decide)
  unfold fetch_doc
  rw [if_neg hne, h1]
  rcases hep : ensure_page net st uri with ⟨o, st2⟩
  rw [hep] at h2
  simp only at h2
  subst h2
  simp

/-- Witness for C7: an allowed uri with a failing network yields the
structured error. -/
theorem C7_fetch_failure_structured_w :
    (fetch_doc netNone stEmptyW "https://strandsagents.com/docs").1 =
      FetchDocResult.err "fetch failed" "https://strandsagents.com/docs" :=
  C7_fetch_failure_structured netNone stEmptyW "https://strandsagents.com/docs"
    (by decide) (by decide)

/-- C8: the `search_docs` response has exactly one entry per index result, in
the index's order, with url and title taken from the corresponding catalog
entry — hydration never reorders, drops or adds results. -/
theorem C8_order_preserved (net : String → Option String) (st : CacheState)
    (results : List (ℚ × CatalogEntry)) :
    (search_docs net st results).1.map (fun r => (r.url, r.title)) =
      results.map (fun p => (p.2.uri, p.2.display_title)) := by
  simp only [search_docs, List.map_map]
  rfl

/-- C10: the allowed-URI policy of `fetch_doc` is exactly the string-prefix
test against `https://strandsagents.com`: any other non-empty uri is rejected
unattempted, any uri with the prefix is attempted via the cache; in
particular an `http://` URL of the same host is rejected, while
`https://strandsagents.community/x` carries the prefix and is fetched (one
network fetch is recorded). -/
theorem C10_policy_is_string_prefix_test :
    (∀ (net : String → Option String) (st : CacheState) (uri : String), uri ≠ "" →
       pyStartsWith uri "https://strandsagents.com" = false →
       fetch_doc net st uri =
         (FetchDocResult.err "only https://strandsagents.com URLs allowed" uri, st))
    ∧ (∀ (net : String → Option String) (st : CacheState) (uri : String),
       pyStartsWith uri "https://strandsagents.com" = true →
       fetch_doc net st uri =
         (match ensure_page net st uri with
          | (none, st2) => (FetchDocResult.err "fetch failed" uri, st2)
          | (some p, st2) => (FetchDocResult.page uri p.title p.content, st2)))
    ∧ pyStartsWith "http://strandsagents.com/docs" "https://strandsagents.com" = false
    ∧ pyStartsWith "https://strandsagents.community/x" "https://strandsagents.com" = true
    ∧ fetch_doc netHello stEmptyW "https://strandsagents.community/x" =
        (FetchDocResult.page "https://strandsagents.community/x" "x" "hello",
         { urlTitles := [],
           urlCache := [("https://strandsagents.community/x",
             some { url := "https://strandsagents.community/x", title := "x",
                    content := "hello" })],
           fetchCount := 1 }) := by
  refine ⟨?_, ?_, by decide, by decide, by decide⟩
  · intro net st uri h1 h2
    unfold fetch_doc
    rw [if_neg h1, h2]
    simp
  · intro net st uri h1
    have hne : uri ≠ "" := by
      intro he
      subst he
      exact absurd h1 (by decide)
    unfold fetch_doc
    rw [if_neg hne, h1]
    simp

/-- Witness for C10: the same-host `http://` URL is rejected unattempted. -/
theorem C10_policy_is_string_prefix_test_w :
    fetch_doc netNone stEmptyW "http://strandsagents.com/docs" =
      (FetchDocResult.err "only https://strandsagents.com URLs allowed"
        "http://strandsagents.com/docs", stEmptyW) :=
  C10_policy_is_string_prefix_test.1 netNone stEmptyW "http://strandsagents.com/docs"
    (by decide) (by decide)
